import Mathlib

/-! # Verification of the marketing-defect vulnerability-scrape scripts

Shallow embedding of the two JavaScript stages of the pipeline
(`catalog_scrape` in `src/unnamed/part_001`, `osv_scrape` in
`src/osv_scrape.js`) and proofs about version comparison, range matching,
retrying requests, worker pooling, result aggregation and catalog
fork-point resolution.

Machine integers do not occur (JavaScript numbers only ever hold small
segment values here), so numeric segments are modelled as `Int`.
-/

namespace MDS

/-- JavaScript `Number(seg)` applied to one dot-free segment of a version
string, as in `compareSemver` (`src/osv_scrape.js:24-25`): a string of
decimal digits parses to its value, the empty string parses to `0`, and
anything else is NaN (modelled as `none`).  Exotic numeric forms (signs,
exponents, hex, whitespace) do not occur in version-string segments and are
modelled as NaN as well. -/
def jsNum (cs : List Char) : Option Int :=
  if cs.isEmpty then some 0
  else if cs.all Char.isDigit then
    some (cs.foldl (fun n c => n * 10 + ((c.toNat : Int) - 48)) 0)
  else none

/-- The value the loop of `compareSemver` reads at an in-range position
(`src/osv_scrape.js:27-28`): `pa[i] || 0` collapses a NaN segment to `0`
(and leaves a real `0` at `0`, since `0 || 0` is `0`). -/
def segNum (cs : List Char) : Int := (jsNum cs).getD 0

/-- JavaScript `a.split(".")` on the character list of `a`
(`src/osv_scrape.js:24`): splits at every dot, keeping empty segments, and
yields `[""]` on the empty string. -/
def splitDots : List Char → List (List Char)
  | [] => [[]]
  | c :: rest =>
    let r := splitDots rest
    if c = '.' then [] :: r
    else (c :: r.headD []) :: r.tail

/-- The tail of the `compareSemver` loop once the first list is exhausted:
every remaining position reads `pa[i] || 0 = 0` on the left
(`src/osv_scrape.js:26-31`). -/
def cmpZeros : List Int → Int
  | [] => 0
  | b :: bs => if (0 : Int) > b then 1 else if (0 : Int) < b then -1 else cmpZeros bs

/-- The position-by-position loop of `compareSemver`
(`src/osv_scrape.js:26-31`), running to the longer of the two segment
lists; a missing position (`undefined || 0`) reads as `0`.  The case where
the left list is exhausted first is delegated to `cmpZeros` to keep the
recursion structural. -/
def cmpLoop : List Int → List Int → Int
  | [], bs => cmpZeros bs
  | a :: as, [] => if a > 0 then 1 else if a < 0 then -1 else cmpLoop as []
  | a :: as, b :: bs => if a > b then 1 else if a < b then -1 else cmpLoop as bs

/-- `compareSemver` (`src/osv_scrape.js:23-33`): split both version strings
on dots, coerce each segment by `Number` (with `|| 0`), compare position by
position; the first unequal position decides, all-equal yields `0`. -/
def compareSemver (a b : String) : Int :=
  cmpLoop ((splitDots a.toList).map segNum) ((splitDots b.toList).map segNum)

/-- An OSV range event `{ introduced?, fixed? }`; a property missing from
the JSON object is `none` (JavaScript `undefined`). -/
structure OsvEvent where
  introduced : Option String
  fixed : Option String
deriving Repr, DecidableEq

/-- An OSV range `{ events: [...] }`; `r.events || []` in the code guards a
missing list. -/
structure OsvRange where
  events : Option (List OsvEvent)
deriving Repr, DecidableEq

/-- An OSV affected entry `{ ranges: [...] }`. -/
structure OsvAffected where
  ranges : Option (List OsvRange)
deriving Repr, DecidableEq

/-- An OSV reference `{ url }`. -/
structure OsvRef where
  url : String
deriving Repr, DecidableEq

/-- A raw OSV vulnerability as read by the scrape
(`src/osv_scrape.js:187-196`); every field the code guards with `|| ...`
is optional. -/
structure Vuln where
  id : String
  summary : Option String
  details : Option String
  severity : Option (List String)
  affected : Option (List OsvAffected)
  references : Option (List OsvRef)
deriving Repr, DecidableEq

/-- The event loop of `isVulnerableAtOrBelow` (`src/osv_scrape.js:43-46`):
walk the events in order, overwriting `introduced` and `fixed` whenever an
event carries the property, starting from `(null, null)`. -/
def eventsFold (evs : List OsvEvent) : Option String × Option String :=
  evs.foldl (fun acc e =>
    (match e.introduced with | some v => some v | none => acc.1,
     match e.fixed with | some v => some v | none => acc.2)) (none, none)

/-- The defaulting step `if (!introduced || introduced === "0") introduced
= "0.0.0"` (`src/osv_scrape.js:49`): JavaScript falsiness for a string
variable means null/undefined or the empty string. -/
def effIntroduced (i : Option String) : String :=
  match i with
  | none => "0.0.0"
  | some s => if s = "" ∨ s = "0" then "0.0.0" else s

/-- The upper-bound test `if (fixed && compareSemver(targetVersion, fixed)
> 0) return false; return true` (`src/osv_scrape.js:57-61`): `fixed` is
falsy when it was never set or is the empty string. -/
def fixedCheck (F : Option String) (t : String) : Bool :=
  match F with
  | none => true
  | some f => if f = "" then true else if compareSemver t f > 0 then false else true

/-- The range callback of `isVulnerableAtOrBelow`
(`src/osv_scrape.js:39-62`): fold the events, default `introduced`, require
target ≥ introduced, and require target ≤ fixed only when `fixed` is truthy
(present and non-empty). -/
def rangeMatches (r : OsvRange) (t : String) : Bool :=
  if compareSemver t (effIntroduced (eventsFold (r.events.getD [])).1) < 0 then false
  else fixedCheck (eventsFold (r.events.getD [])).2 t

/-- `isVulnerableAtOrBelow` (`src/osv_scrape.js:35-64`): false when
`affected` is missing, otherwise true when some affected entry has some
matching range. -/
def isVulnerableAtOrBelow (v : Vuln) (t : String) : Bool :=
  match v.affected with
  | none => false
  | some aff => aff.any (fun a => (a.ranges.getD []).any (fun r => rangeMatches r t))

/-- The last `introduced` event value of a range's event list (spec
vocabulary for C3). -/
def lastIntroduced (evs : List OsvEvent) : Option String :=
  (evs.filterMap (fun e => e.introduced)).getLast?

/-- The last `fixed` event value of a range's event list (spec vocabulary
for C3). -/
def lastFixed (evs : List OsvEvent) : Option String :=
  (evs.filterMap (fun e => e.fixed)).getLast?

/-- Modelled from the words of claim C3: the effective introduced bound,
"the last introduced event in the range's event list, replaced by `0.0.0`
when unset or literally `0`", as a function of that last event value. -/
def specEffIntroducedOpt (L : Option String) : String :=
  match L with
  | none => "0.0.0"
  | some s => if s = "0" then "0.0.0" else s

/-- Claim C3's effective introduced bound of a range's event list. -/
def specEffIntroduced (evs : List OsvEvent) : String :=
  specEffIntroducedOpt (lastIntroduced evs)

/-- Claim C3's upper-bound condition: when an effective fixed bound exists,
the target is ≤ that fixed bound. -/
def specFixedCheck (F : Option String) (t : String) : Bool :=
  match F with
  | none => true
  | some f => decide (compareSemver t f ≤ 0)

/-- The amended upper-bound condition: an effective fixed bound that is the
empty string is ignored. -/
def specFixedCheckAmended (F : Option String) (t : String) : Bool :=
  match F with
  | none => true
  | some f => f == "" || decide (compareSemver t f ≤ 0)

/-- Modelled from the words of claim C3, for one range: effective
introduced bound ≤ target, and when an effective fixed bound exists the
target is ≤ that fixed bound. -/
def specRangeAffected (r : OsvRange) (t : String) : Bool :=
  decide (compareSemver (specEffIntroduced (r.events.getD [])) t ≤ 0) &&
    specFixedCheck (lastFixed (r.events.getD [])) t

/-- Claim C3's predicate over a whole vulnerability: some affected entry
has some range satisfying `specRangeAffected`; no affected data yields
false. -/
def specAffected (v : Vuln) (t : String) : Bool :=
  match v.affected with
  | none => false
  | some aff => aff.any (fun a => (a.ranges.getD []).any (fun r => specRangeAffected r t))

/-- Claim C3 as amended: identical except that an effective fixed bound
that is the empty string is ignored (it is falsy in JavaScript, so the code
never compares against it). -/
def specRangeAffectedAmended (r : OsvRange) (t : String) : Bool :=
  decide (compareSemver (specEffIntroduced (r.events.getD [])) t ≤ 0) &&
    specFixedCheckAmended (lastFixed (r.events.getD [])) t

/-- The amended claim C3 over a whole vulnerability. -/
def specAffectedAmended (v : Vuln) (t : String) : Bool :=
  match v.affected with
  | none => false
  | some aff => aff.any (fun a => (a.ranges.getD []).any (fun r => specRangeAffectedAmended r t))

/-- The vulnerability of claim C2: one affected entry, one range, events
`introduced "1.0.0"` then `fixed "2.0.0"`. -/
def c2Vuln : Vuln :=
  { id := "C2-V", summary := none, details := none, severity := none,
    affected := some [⟨some [⟨some [⟨some "1.0.0", none⟩, ⟨none, some "2.0.0"⟩]⟩]⟩],
    references := none }

/-- A vulnerability whose single range carries one event with `fixed` set
to the empty string; it separates the code from claim C3's wording. -/
def c3Vuln : Vuln :=
  { id := "C3-V", summary := none, details := none, severity := none,
    affected := some [⟨some [⟨some [⟨none, some ""⟩]⟩]⟩],
    references := none }

/-- A vulnerability with no affected field at all (JSON `affected`
missing). -/
def noDataVuln : Vuln :=
  { id := "C3-W", summary := none, details := none, severity := none,
    affected := none, references := none }

/-- Retry configuration (`src/osv_scrape.js:7-9`). -/
def RETRY_LIMIT : Nat := 5

/-- Base backoff delay in milliseconds (`src/osv_scrape.js:9`). -/
def INITIAL_DELAY : Nat := 1000

/-- The OSV query response payload `{ vulns: [...] }`; the code reads
`data.vulns || []` (`src/osv_scrape.js:140`). -/
structure OsvResponse where
  vulns : Option (List Vuln)
deriving Repr, DecidableEq

/-- One network response as seen by the end handler of `httpsPost`: the
HTTP status code, plus the result of `JSON.parse` on the body (`none` when
parsing would throw). -/
structure HttpResponse where
  statusCode : Nat
  parsedBody : Option OsvResponse
deriving Repr, DecidableEq

/-- How `httpsPost` settles: a parsed payload, or an error whose
`retryable` flag is set exactly for rate-limit/server statuses. -/
inductive PostOutcome where
  | success (data : OsvResponse)
  | failure (retryable : Bool)
deriving Repr, DecidableEq

/-- The classification in the response handler of `httpsPost`
(`src/osv_scrape.js:85-97`): status 429 or ≥ 500 rejects with a retryable
error; any other non-2xx status rejects permanently; a 2xx body that fails
to parse rejects permanently; otherwise the parsed payload resolves. -/
def classifyResponse (res : HttpResponse) : PostOutcome :=
  if res.statusCode = 429 ∨ res.statusCode ≥ 500 then .failure true
  else if res.statusCode < 200 ∨ res.statusCode ≥ 300 then .failure false
  else
    match res.parsedBody with
    | some d => .success d
    | none => .failure false

/-- `osvRequest` (`src/osv_scrape.js:133-151`), driven by the sequence of
network responses that successive attempts receive.  Returns the backoff
delays slept (ms, in order) and the final result: a success returns
`data.vulns || []`; a retryable failure with `attempt ≤ RETRY_LIMIT`
sleeps `INITIAL_DELAY * 2 ^ (attempt - 1)` and recurses with `attempt+1`;
anything else yields the empty result list. -/
def osvRequestGo : List HttpResponse → Nat → List Nat × List Vuln
  | [], _ => ([], [])
  | res :: rest, attempt =>
    match classifyResponse res with
    | .success data => ([], data.vulns.getD [])
    | .failure retryable =>
      if retryable = true ∧ attempt ≤ RETRY_LIMIT then
        (INITIAL_DELAY * 2 ^ (attempt - 1) :: (osvRequestGo rest (attempt + 1)).1,
         (osvRequestGo rest (attempt + 1)).2)
      else ([], [])

/-- `osvRequest` starts at attempt 1 (`src/osv_scrape.js:133`). -/
def osvRequest (trace : List HttpResponse) : List Nat × List Vuln :=
  osvRequestGo trace 1

/-- A server-error response (status 500, body irrelevant). -/
def fail500 : HttpResponse := ⟨500, none⟩

/-- A successful response carrying payload `d`. -/
def ok200 (d : OsvResponse) : HttpResponse := ⟨200, some d⟩

/-- First-occurrence deduplication: JavaScript `[...new Set(l)]` (a `Set`
iterates in insertion order). -/
def dedupKeepFirst (l : List String) : List String :=
  l.foldl (fun acc x => if x ∈ acc then acc else acc ++ [x]) []

/-- `extractFixes` (`src/osv_scrape.js:153-163`): walk every event of every
range of every affected entry, adding each truthy `fixed` value (present
and non-empty) to a `Set`; return its insertion-order list. -/
def extractFixes (v : Vuln) : List String :=
  dedupKeepFirst ((v.affected.getD []).bind (fun a =>
    (a.ranges.getD []).bind (fun r =>
      (r.events.getD []).filterMap (fun e =>
        match e.fixed with
        | some f => if f = "" then none else some f
        | none => none))))

/-- The merged vulnerability record stored in `allVulns`
(`src/osv_scrape.js:188-197`). -/
structure VulnRecord where
  id : String
  summary : String
  details : String
  severity : List String
  affected : List OsvAffected
  fixedVersions : List String
  references : List String
  affectedComponents : List String
deriving Repr, DecidableEq

/-- JS `Map.get`, on a map modelled as an association list in insertion
order (a JS `Map` key occurs at most once). -/
def jsMapGet {κ ν : Type} [BEq κ] (m : List (κ × ν)) (k : κ) : Option ν :=
  (m.find? (fun p => p.1 == k)).map (fun p => p.2)

/-- JS `Map.has`. -/
def jsMapHas {κ ν : Type} [BEq κ] (m : List (κ × ν)) (k : κ) : Bool :=
  m.any (fun p => p.1 == k)

/-- JS `Map.set`: overwrite the (unique) existing entry in place keeping
insertion order, otherwise append. -/
def jsMapSet {κ ν : Type} [BEq κ] : List (κ × ν) → κ → ν → List (κ × ν)
  | [], k, v => [(k, v)]
  | p :: m, k, v => if p.1 == k then (k, v) :: m else p :: jsMapSet m k v

/-- The record built on first sight of a vulnerability id
(`src/osv_scrape.js:188-197`): `|| ""` / `|| []` defaults, fixes from
`extractFixes`, components seeded with the reporting component. -/
def initRecord (v : Vuln) (comp : String) : VulnRecord :=
  { id := v.id, summary := v.summary.getD "", details := v.details.getD "",
    severity := v.severity.getD [], affected := v.affected.getD [],
    fixedVersions := extractFixes v,
    references := (v.references.getD []).map (fun r => r.url),
    affectedComponents := [comp] }

/-- The merge branch (`src/osv_scrape.js:199-203`): union the fixes with
first-occurrence dedup, append the component only when absent. -/
def mergeRecord (ex : VulnRecord) (v : Vuln) (comp : String) : VulnRecord :=
  { ex with
    fixedVersions := dedupKeepFirst (ex.fixedVersions ++ extractFixes v),
    affectedComponents :=
      if comp ∈ ex.affectedComponents then ex.affectedComponents
      else ex.affectedComponents ++ [comp] }

/-- One aggregator record operation: the body of the loop over
`relevantVulns` (`src/osv_scrape.js:187-204`), without the remediated
counter. -/
def recordVuln (m : List (String × VulnRecord)) (v : Vuln) (comp : String) :
    List (String × VulnRecord) :=
  match jsMapGet m v.id with
  | none => jsMapSet m v.id (initRecord v comp)
  | some ex => jsMapSet m v.id (mergeRecord ex v comp)

/-- A sequence of aggregator record operations applied to the initially
empty `allVulns` map. -/
def runAggregator (ops : List (Vuln × String)) : List (String × VulnRecord) :=
  ops.foldl (fun m op => recordVuln m op.1 op.2) []

/-- A vulnerability with identifier `vid` whose only range event is
`fixed f`. -/
def fixVuln (vid f : String) : Vuln :=
  { id := vid, summary := none, details := none, severity := none,
    affected := some [⟨some [⟨some [⟨none, some f⟩]⟩]⟩], references := none }

/-- A stage-2 work item `{ component, forkPoint }` as read from
`componentsWithForkPoints.json` (`src/osv_scrape.js:214-225`). -/
structure WorkItem where
  component : String
  forkPoint : String
deriving Repr, DecidableEq

/-- The two module-level result maps of stage 2
(`src/osv_scrape.js:14-15`). -/
structure ScrapeState where
  allVulns : List (String × VulnRecord)
  perPackageCounts : List (String × Nat)
deriving Repr, DecidableEq

/-- One loop iteration of `worker` (`src/osv_scrape.js:167-208`), given the
vulnerability list its query produced (the empty list both for a genuinely
empty result and for a permanently failed query, since `osvRequest`
returns `[]` for those): an empty list `continue`s without touching the
per-component summary; otherwise the vulns relevant at the fork point are
recorded in `allVulns` and the component's remediated count (relevant
vulns with at least one known fix) is stored in `perPackageCounts`. -/
def processItem (s : ScrapeState) (pkg : WorkItem) (vulns : List Vuln) : ScrapeState :=
  if vulns.isEmpty then s
  else
    { allVulns :=
        (vulns.filter (fun v => isVulnerableAtOrBelow v pkg.forkPoint)).foldl
          (fun m v => recordVuln m v pkg.component) s.allVulns,
      perPackageCounts :=
        jsMapSet s.perPackageCounts pkg.component
          ((vulns.filter (fun v => isVulnerableAtOrBelow v pkg.forkPoint)).countP
            (fun v => !(extractFixes v).isEmpty)) }

/-- A completed stage-2 run: every work item processed in order, each
paired with the vulnerability list its query produced.  (The JS event loop
serialises all map updates, so the interleaving of the two worker lanes is
a permutation of per-item steps; the summary-map claims below are
insensitive to that order.) -/
def runStage2 (ops : List (WorkItem × List Vuln)) : ScrapeState :=
  ops.foldl (fun s op => processItem s op.1 op.2) ⟨[], []⟩

/-- State of the worker pool (`src/osv_scrape.js:166-168` and `225-227`):
the shared queue (`queue.shift()` removes the head) and the log of
dequeues in order, each tagged with the lane that performed it.  A lane
evaluates `queue.length` and `queue.shift()` with no `await` in between,
so on the JavaScript event loop the dequeue is one atomic step. -/
structure PoolState where
  queue : List WorkItem
  log : List (Nat × WorkItem)
deriving Repr, DecidableEq

/-- One scheduling step: the chosen lane runs up to its next suspension
point.  Facing a nonempty queue it shifts the head and owns it; facing an
empty queue it exits its `while (queue.length)` loop, leaving the state
unchanged. -/
def poolStep (s : PoolState) (lane : Nat) : PoolState :=
  match s.queue with
  | [] => s
  | it :: rest => { queue := rest, log := s.log ++ [(lane, it)] }

/-- Run the pool under an arbitrary schedule: the sequence of lane choices
the event loop makes until all lanes have exited. -/
def poolRun (sched : List Nat) (s : PoolState) : PoolState :=
  sched.foldl poolStep s

/-- The `oss` object of a catalog version record, carrying the fork-point
version (`src/unnamed/part_001:48-50`). -/
structure OssInfo where
  forkPoint : String
deriving Repr, DecidableEq

/-- One version record of a catalog entry. -/
structure VersionRec where
  oss : OssInfo
deriving Repr, DecidableEq

/-- A catalog entry from the paginated catalog API: a component identifier
(`none` models a missing property) and its version records. -/
structure CatalogItem where
  component : Option String
  versions : List VersionRec
deriving Repr, DecidableEq

/-- `item.componenty` (`src/unnamed/part_001:54`): catalog entries have no
`componenty` property, so the JavaScript access yields `undefined` on
every item. -/
def CatalogItem.componenty (_ : CatalogItem) : Option String := none

/-- A value stored in `allComponentsMap`: `{ component, forkPoint }`
(`src/unnamed/part_001:55-58`). -/
structure ComponentEntry where
  component : String
  forkPoint : String
deriving Repr, DecidableEq

/-- The `allComponentsMap`, keyed by `Option String` because the code
calls `Map.has` on the undefined `item.componenty` (a JS `Map` accepts
`undefined` as a key). -/
abbrev CatalogMap := List (Option String × ComponentEntry)

/-- The `forEach` body over one observed fork point
(`src/unnamed/part_001:53-68`): the membership guard reads
`item.componenty`; only the else branch compares fork points with
`compareSemver`.  (If the guard were ever true while the component itself
were absent, the JS would throw reading `existing.forkPoint`; that state
is modelled as a no-op and proved unreachable below.) -/
def processForkPoint (item : CatalogItem) (c : String) (m : CatalogMap)
    (fp : String) : CatalogMap :=
  if !(jsMapHas m item.componenty) then
    jsMapSet m (some c) ⟨c, fp⟩
  else
    match jsMapGet m (some c) with
    | some existing =>
      if compareSemver fp existing.forkPoint > 0 then jsMapSet m (some c) ⟨c, fp⟩
      else m
    | none => m

/-- One iteration of the `for (const item of results)` loop
(`src/unnamed/part_001:47-70`): items with a falsy `component` (absent or
empty) are skipped. -/
def processCatalogItem (m : CatalogMap) (item : CatalogItem) : CatalogMap :=
  match item.component with
  | some c =>
    if c = "" then m
    else (item.versions.map (fun v => v.oss.forkPoint)).foldl (processForkPoint item c) m
  | none => m

/-- `processResults` (`src/unnamed/part_001:46-71`) over one page of
results. -/
def processResults (results : List CatalogItem) (m : CatalogMap) : CatalogMap :=
  results.foldl processCatalogItem m

/-- The behaviour claim C9 asserts: every observed fork point is stored
unconditionally, so per component the last observation wins. -/
def processCatalogItemLastWins (m : CatalogMap) (item : CatalogItem) : CatalogMap :=
  match item.component with
  | some c =>
    if c = "" then m
    else (item.versions.map (fun v => v.oss.forkPoint)).foldl
      (fun m fp => jsMapSet m (some c) ⟨c, fp⟩) m
  | none => m

/-- Claim C9's unconditional-overwrite reading of `processResults`. -/
def processResultsLastWins (results : List CatalogItem) (m : CatalogMap) : CatalogMap :=
  results.foldl processCatalogItemLastWins m

/-- The fork points observed for component `c`, in processing order. -/
def observedForks (c : String) (results : List CatalogItem) : List String :=
  results.bind (fun item =>
    if item.component = some c then item.versions.map (fun v => v.oss.forkPoint) else [])

/-- All keys of the catalog map are actual strings (never `undefined`). -/
def catKeysSome (m : CatalogMap) : Prop := ∀ p ∈ m, p.1 ≠ none

/-- The parsed purl `{ registry, component, version }`
(`src/osv_scrape.js:130`). -/
structure Purl where
  registry : String
  component : String
  version : Option String
deriving Repr, DecidableEq

/-- `parsePurl` (`src/osv_scrape.js:107-131`): the regex
`^pkg:([^\134/]+)\134/([^@]+)(?:@(.+))?` followed by registry
normalization (`gem` → `RubyGems`, `maven` → `Maven`, `composer` →
`Packagist`).  Group 1 is the maximal nonempty run of non-slash characters
after `pkg:`, which must be followed by a slash; group 2 the maximal
nonempty run of non-`@` characters; the optional group 3 needs an `@`
followed by at least one character, else the version is null. -/
def parsePurl (purl : String) : Option Purl :=
  let cs := purl.toList
  if cs.take 4 = "pkg:".toList then
    let rest := cs.drop 4
    let reg := rest.takeWhile (fun c => c ≠ '/')
    if reg.length = 0 ∨ reg.length = rest.length then none
    else
      let afterReg := rest.drop (reg.length + 1)
      let comp := afterReg.takeWhile (fun c => c ≠ '@')
      if comp.length = 0 then none
      else
        let version :=
          if comp.length = afterReg.length then none
          else
            let vs := afterReg.drop (comp.length + 1)
            if vs.length = 0 then none else some (String.mk vs)
        let registry1 := if String.mk reg = "gem" then "RubyGems" else String.mk reg
        let registry2 := if registry1 = "maven" then "Maven" else registry1
        let registry3 := if registry2 = "composer" then "Packagist" else registry2
        some { registry := registry3, component := String.mk comp, version := version }
  else none

/-- The request body `{ package: { purl: pkg.component } }` that
`osvRequest` posts (`src/osv_scrape.js:135-139`). -/
structure QueryBody where
  purl : String
deriving Repr, DecidableEq

/-- The payload built for one work item: the raw component identifier,
with no purl parsing or registry normalization applied. -/
def mkQueryBody (pkg : WorkItem) : QueryBody := ⟨pkg.component⟩

theorem cmpLoop_self (l : List Int) : cmpLoop l l = 0 := by
  induction l with
  | nil => rfl
  | cons a as ih => simp [cmpLoop, ih]

theorem cmpZeros_eq_neg (bs : List Int) : cmpZeros bs = -cmpLoop bs [] := by
  induction bs with
  | nil => rfl
  | cons b bs ih =>
    simp only [cmpZeros, cmpLoop]
    split_ifs with h1 h2 h3 h4 <;> first | omega | simpa using ih

theorem cmpLoop_neg (as : List Int) : ∀ bs, cmpLoop as bs = -cmpLoop bs as := by
  induction as with
  | nil =>
    intro bs
    simpa [cmpLoop] using cmpZeros_eq_neg bs
  | cons a as ih =>
    intro bs
    cases bs with
    | nil =>
      have := cmpZeros_eq_neg (a :: as)
      simp only [cmpLoop] at this ⊢
      omega
    | cons b bs =>
      have hrec := ih bs
      simp only [cmpLoop]
      split_ifs with h1 h2 h3 h4 <;> first | omega | (exfalso; omega) | simpa using hrec

/-- Uniform unfolding of `cmpLoop` through virtual heads (missing positions
read as `0`), valid whenever at least one list is nonempty. -/
theorem cmpLoop_unfold (as bs : List Int) (h : as ≠ [] ∨ bs ≠ []) :
    cmpLoop as bs =
      if as.headD 0 > bs.headD 0 then 1
      else if as.headD 0 < bs.headD 0 then -1
      else cmpLoop as.tail bs.tail := by
  cases as with
  | nil =>
    cases bs with
    | nil => simp at h
    | cons b bs => simp [cmpLoop, cmpZeros]
  | cons a as =>
    cases bs with
    | nil => simp [cmpLoop]
    | cons b bs => simp [cmpLoop]

theorem cmpLoop_trans_aux : ∀ (n : Nat) (as bs cs : List Int),
    as.length + bs.length + cs.length ≤ n →
    cmpLoop as bs ≤ 0 → cmpLoop bs cs ≤ 0 → cmpLoop as cs ≤ 0 := by
  intro n
  induction n with
  | zero =>
    intro as bs cs h _ _
    have ha : as = [] := List.eq_nil_of_length_eq_zero (by omega)
    have hc : cs = [] := List.eq_nil_of_length_eq_zero (by omega)
    subst ha; subst hc
    simp [cmpLoop, cmpZeros]
  | succ n ih =>
    intro as bs cs h h1 h2
    by_cases hac : as = [] ∧ cs = []
    · rcases hac with ⟨ha, hc⟩; subst ha; subst hc; simp [cmpLoop, cmpZeros]
    by_cases hab : as = [] ∧ bs = []
    · rcases hab with ⟨ha, hb⟩; subst ha; subst hb; exact h2
    by_cases hbc : bs = [] ∧ cs = []
    · rcases hbc with ⟨hb, hc⟩; subst hb; subst hc; exact h1
    -- each pair now has a nonempty member, so at least two lists are nonempty
    rw [cmpLoop_unfold as bs (by tauto)] at h1
    rw [cmpLoop_unfold bs cs (by tauto)] at h2
    rw [cmpLoop_unfold as cs (by tauto)]
    set x := as.headD 0 with hx
    set y := bs.headD 0 with hy
    set z := cs.headD 0 with hz
    by_cases hxy : x > y
    · simp [hxy] at h1
    by_cases hyz : y > z
    · simp [hyz] at h2
    by_cases hxz : x > z
    · omega
    simp only [if_neg hxz]
    by_cases hxz2 : x < z
    · simp [hxz2]
    simp only [if_neg hxz2]
    -- x = z, and x ≤ y ≤ z forces x = y = z: recurse on the tails
    have hxy2 : ¬ x < y := by omega
    have hyz2 : ¬ y < z := by omega
    simp only [if_neg hxy, if_neg hxy2] at h1
    simp only [if_neg hyz, if_neg hyz2] at h2
    have hlen : as.tail.length + bs.tail.length + cs.tail.length ≤ n := by
      have las : as.tail.length = as.length - 1 := by simp
      have lbs : bs.tail.length = bs.length - 1 := by simp
      have lcs : cs.tail.length = cs.length - 1 := by simp
      rcases Decidable.em (as = []) with ha | ha
      · have hb : bs ≠ [] := fun hb => hab ⟨ha, hb⟩
        have hc : cs ≠ [] := fun hc => hac ⟨ha, hc⟩
        have hb1 : 1 ≤ bs.length := List.length_pos.mpr hb
        have hc1 : 1 ≤ cs.length := List.length_pos.mpr hc
        omega
      · rcases Decidable.em (bs = []) with hb | hb
        · have hc : cs ≠ [] := fun hc => hbc ⟨hb, hc⟩
          have ha1 : 1 ≤ as.length := List.length_pos.mpr ha
          have hc1 : 1 ≤ cs.length := List.length_pos.mpr hc
          omega
        · have ha1 : 1 ≤ as.length := List.length_pos.mpr ha
          have hb1 : 1 ≤ bs.length := List.length_pos.mpr hb
          omega
    exact ih as.tail bs.tail cs.tail hlen h1 h2

theorem cmpLoop_trans (as bs cs : List Int) (h1 : cmpLoop as bs ≤ 0)
    (h2 : cmpLoop bs cs ≤ 0) : cmpLoop as cs ≤ 0 :=
  cmpLoop_trans_aux (as.length + bs.length + cs.length) as bs cs (Nat.le_refl _) h1 h2

theorem compareSemver_self (a : String) : compareSemver a a = 0 :=
  cmpLoop_self _

theorem compareSemver_antisymm (a b : String) :
    compareSemver a b = -compareSemver b a :=
  cmpLoop_neg _ _

theorem compareSemver_trans (a b c : String) (h1 : compareSemver a b ≤ 0)
    (h2 : compareSemver b c ≤ 0) : compareSemver a c ≤ 0 :=
  cmpLoop_trans _ _ _ h1 h2

theorem cmpLoop_replicate_zero (k : Nat) (bs : List Int) :
    cmpLoop (List.replicate k 0) bs = cmpZeros bs := by
  induction k generalizing bs with
  | zero => rfl
  | succ k ih =>
    cases bs with
    | nil => simp [List.replicate, cmpLoop, ih, cmpZeros]
    | cons b bs => simp [List.replicate, cmpLoop, cmpZeros, ih]

/-- The empty version string and `"0.0.0"` compare the same way against
everything: both split into all-zero segment lists. -/
theorem compareSemver_empty_left (t : String) :
    compareSemver "" t = compareSemver "0.0.0" t := by
  have h1 : (splitDots "".toList).map segNum = List.replicate 1 0 := rfl
  have h3 : (splitDots "0.0.0".toList).map segNum = List.replicate 3 0 := rfl
  rw [compareSemver, compareSemver, h1, h3, cmpLoop_replicate_zero, cmpLoop_replicate_zero]

theorem compareSemver_empty_right (t : String) :
    compareSemver t "" = compareSemver t "0.0.0" := by
  rw [compareSemver_antisymm t "", compareSemver_antisymm t "0.0.0",
    compareSemver_empty_left t]

theorem getLastQ_cons {α : Type} (a : α) (l : List α) :
    (a :: l).getLast? = match l.getLast? with | none => some a | some v => some v := by
  cases l with
  | nil => rfl
  | cons b l =>
    rw [List.getLast?_cons_cons]
    rcases h : (b :: l).getLast? with _ | v
    · rw [List.getLast?_eq_none_iff] at h
      simp at h
    · rfl

theorem lastIntroduced_cons (e : OsvEvent) (rest : List OsvEvent) :
    lastIntroduced (e :: rest) =
      match lastIntroduced rest with | none => e.introduced | some v => some v := by
  unfold lastIntroduced
  cases hi : e.introduced with
  | none =>
    rw [List.filterMap_cons_none hi]
    cases h : (rest.filterMap (fun e => e.introduced)).getLast? <;> simp [h]
  | some a =>
    rw [List.filterMap_cons_some hi, getLastQ_cons]
    cases h : (rest.filterMap (fun e => e.introduced)).getLast? <;> simp [h]

theorem lastFixed_cons (e : OsvEvent) (rest : List OsvEvent) :
    lastFixed (e :: rest) =
      match lastFixed rest with | none => e.fixed | some v => some v := by
  unfold lastFixed
  cases hi : e.fixed with
  | none =>
    rw [List.filterMap_cons_none hi]
    cases h : (rest.filterMap (fun e => e.fixed)).getLast? <;> simp [h]
  | some a =>
    rw [List.filterMap_cons_some hi, getLastQ_cons]
    cases h : (rest.filterMap (fun e => e.fixed)).getLast? <;> simp [h]

theorem eventsFold_aux (evs : List OsvEvent) (i0 f0 : Option String) :
    evs.foldl (fun acc e =>
      (match e.introduced with | some v => some v | none => acc.1,
       match e.fixed with | some v => some v | none => acc.2)) (i0, f0)
    = ((match lastIntroduced evs with | none => i0 | some v => some v),
       (match lastFixed evs with | none => f0 | some v => some v)) := by
  induction evs generalizing i0 f0 with
  | nil => simp [lastIntroduced, lastFixed]
  | cons e rest ih =>
    rw [List.foldl_cons, ih, lastIntroduced_cons, lastFixed_cons]
    cases lastIntroduced rest <;> cases lastFixed rest <;>
      cases e.introduced <;> cases e.fixed <;> rfl

/-- The code's event fold computes exactly the last `introduced` and the
last `fixed` values of the event list. -/
theorem eventsFold_eq (evs : List OsvEvent) :
    eventsFold evs = (lastIntroduced evs, lastFixed evs) := by
  rw [eventsFold, eventsFold_aux]
  cases lastIntroduced evs <;> cases lastFixed evs <;> rfl

theorem eventsFold_fst (evs : List OsvEvent) :
    (eventsFold evs).1 = lastIntroduced evs := by rw [eventsFold_eq]

theorem eventsFold_snd (evs : List OsvEvent) :
    (eventsFold evs).2 = lastFixed evs := by rw [eventsFold_eq]

theorem if_false_else (c : Prop) [Decidable c] (x : Bool) :
    (if c then false else x) = ((!(decide c)) && x) := by
  by_cases h : c
  · rw [if_pos h, decide_eq_true h]
    rfl
  · rw [if_neg h, decide_eq_false h]
    rfl

/-- The code's lower-bound test agrees with the claim's reading of the
effective introduced bound, for every value of the last introduced event:
the only divergence, the empty string, compares like `"0.0.0"`. -/
theorem effIntroduced_bridge (L : Option String) (t : String) :
    (¬ compareSemver t (effIntroduced L) < 0) ↔
      compareSemver (specEffIntroducedOpt L) t ≤ 0 := by
  have key : ∀ u : String, (¬ compareSemver t u < 0) ↔ compareSemver u t ≤ 0 := by
    intro u
    rw [compareSemver_antisymm t u]
    omega
  cases L with
  | none => exact key "0.0.0"
  | some s =>
    by_cases h0 : s = "0"
    · subst h0
      simp only [effIntroduced, specEffIntroducedOpt, if_pos (Or.inr rfl), if_pos rfl]
      exact key "0.0.0"
    · by_cases he : s = ""
      · subst he
        simp only [effIntroduced, specEffIntroducedOpt, if_pos (Or.inl rfl), if_neg h0,
          compareSemver_empty_left t]
        exact key "0.0.0"
      · simp only [effIntroduced, specEffIntroducedOpt,
          if_neg (by tauto : ¬ (s = "" ∨ s = "0")), if_neg h0]
        exact key s

/-- The code's upper-bound test agrees with the amended claim's reading of
the effective fixed bound. -/
theorem fixed_bridge (F : Option String) (t : String) :
    fixedCheck F t = specFixedCheckAmended F t := by
  cases F with
  | none => rfl
  | some f =>
    by_cases hf : f = ""
    · simp [fixedCheck, specFixedCheckAmended, hf]
    · have hb : (f == "") = false := by simp [hf]
      simp only [fixedCheck, specFixedCheckAmended, if_neg hf, hb, Bool.false_or]
      by_cases hc : compareSemver t f > 0
      · rw [if_pos hc, eq_comm, decide_eq_false_iff_not]
        omega
      · rw [if_neg hc, eq_comm, decide_eq_true_eq]
        omega

theorem rangeMatches_eq_amended (r : OsvRange) (t : String) :
    rangeMatches r t = specRangeAffectedAmended r t := by
  unfold rangeMatches specRangeAffectedAmended
  rw [eventsFold_fst, eventsFold_snd, if_false_else]
  have h1 : (!(decide (compareSemver t (effIntroduced (lastIntroduced (r.events.getD []))) < 0)))
      = decide (compareSemver (specEffIntroduced (r.events.getD [])) t ≤ 0) := by
    rw [← decide_not, decide_eq_decide]
    exact effIntroduced_bridge _ t
  rw [h1, fixed_bridge]

theorem isVulnerable_eq_specAmended (v : Vuln) (t : String) :
    isVulnerableAtOrBelow v t = specAffectedAmended v t := by
  unfold isVulnerableAtOrBelow specAffectedAmended
  cases v.affected with
  | none => rfl
  | some aff =>
    have hfun : (fun r => rangeMatches r t) = (fun r => specRangeAffectedAmended r t) :=
      funext fun r => rangeMatches_eq_amended r t
    simp only [hfun]

/-- C2 (counterexample): the claim says `isVulnerableAtOrBelow` returns
false at target `"2.0.0"` for the range introduced `"1.0.0"` / fixed
`"2.0.0"`, but the code's upper-bound test `compareSemver(target, fixed) >
0` is inclusive, so the fixed version itself is reported vulnerable. -/
theorem C2_counterexample : isVulnerableAtOrBelow c2Vuln "2.0.0" = true := by decide

/-- C2 (amended): for the single range introduced `"1.0.0"` / fixed
`"2.0.0"`, `isVulnerableAtOrBelow` returns true at `"1.5.0"`, `"1.0.0"`
and also at `"2.0.0"` (the fixed bound is inclusive), and false at
`"0.9.0"`. -/
theorem C2_range_boundaries :
    isVulnerableAtOrBelow c2Vuln "1.5.0" = true ∧
    isVulnerableAtOrBelow c2Vuln "1.0.0" = true ∧
    isVulnerableAtOrBelow c2Vuln "2.0.0" = true ∧
    isVulnerableAtOrBelow c2Vuln "0.9.0" = false := by decide

/-- C3 (counterexample): a range whose last `fixed` event is the empty
string: the claim's predicate requires target ≤ `""`, which fails at
`"1.0.0"`, but the code treats the falsy `fixed` as absent and reports
vulnerable. -/
theorem C3_counterexample :
    isVulnerableAtOrBelow c3Vuln "1.0.0" = true ∧
      specAffected c3Vuln "1.0.0" = false := by decide

/-- C3 (amended): `isVulnerableAtOrBelow` returns true iff some affected
entry has some range whose effective introduced bound (last `introduced`
event, `"0.0.0"` when unset or literally `"0"`) is ≤ the target and, when
an effective fixed bound (last `fixed` event) exists **and is non-empty**,
the target is ≤ that bound; a vulnerability with no affected data yields
false. -/
theorem C3_isVulnerable_iff_amended :
    (∀ (v : Vuln) (t : String), isVulnerableAtOrBelow v t = specAffectedAmended v t) ∧
    (∀ (v : Vuln) (t : String), v.affected = none → isVulnerableAtOrBelow v t = false) := by
  refine ⟨isVulnerable_eq_specAmended, ?_⟩
  intro v t h
  unfold isVulnerableAtOrBelow
  rw [h]

theorem C3_isVulnerable_iff_amended_witness :
    isVulnerableAtOrBelow noDataVuln "1.0.0" = specAffectedAmended noDataVuln "1.0.0" ∧
    noDataVuln.affected = none ∧ isVulnerableAtOrBelow noDataVuln "1.0.0" = false :=
  ⟨C3_isVulnerable_iff_amended.1 noDataVuln "1.0.0", rfl,
   C3_isVulnerable_iff_amended.2 noDataVuln "1.0.0" rfl⟩

/-- C7: `compareSemver` is reflexively zero, antisymmetric and transitive
over all version strings, and takes the claimed values on the two concrete
pairs (`"1.2.0"` pads equal to `"1.2"`; `"2.0.0"` exceeds `"1.9.9"`). -/
theorem C7_compareSemver_preorder :
    (∀ a : String, compareSemver a a = 0) ∧
    (∀ a b : String, compareSemver a b = -compareSemver b a) ∧
    (∀ a b c : String, compareSemver a b ≤ 0 → compareSemver b c ≤ 0 →
      compareSemver a c ≤ 0) ∧
    compareSemver "1.2.0" "1.2" = 0 ∧ compareSemver "2.0.0" "1.9.9" = 1 :=
  ⟨compareSemver_self, compareSemver_antisymm, compareSemver_trans, by decide, by decide⟩

theorem C7_compareSemver_preorder_witness :
    compareSemver "1.0.0" "1.2" ≤ 0 ∧ compareSemver "1.2" "2.0.0" ≤ 0 ∧
      compareSemver "1.0.0" "2.0.0" ≤ 0 :=
  ⟨by decide, by decide,
   C7_compareSemver_preorder.2.2.1 "1.0.0" "1.2" "2.0.0" (by decide) (by decide)⟩

/-- C4: status 429 or ≥ 500 is classified retryable; four 500s followed by
a 200 yield the parsed payload after exactly 5 attempts having slept
1s, 2s, 4s, 8s; six retryable failures exhaust the ceiling of 5 retries
(sleeping 1s, 2s, 4s, 8s, 16s) and degrade to the empty result list; a
permanent first failure immediately yields the empty result list. -/
theorem C4_retry_behavior :
    (∀ res : HttpResponse, res.statusCode = 429 ∨ res.statusCode ≥ 500 →
      classifyResponse res = .failure true) ∧
    (∀ d : OsvResponse,
      osvRequest (List.replicate 4 fail500 ++ [ok200 d])
        = ([1000, 2000, 4000, 8000], d.vulns.getD []) ∧
      (osvRequest (List.replicate 4 fail500 ++ [ok200 d])).1.length + 1 = 5) ∧
    (∀ rest : List HttpResponse,
      osvRequest (List.replicate 6 fail500 ++ rest)
        = ([1000, 2000, 4000, 8000, 16000], [])) ∧
    (∀ (res : HttpResponse) (rest : List HttpResponse),
      classifyResponse res = .failure false → osvRequest (res :: rest) = ([], [])) := by
  refine ⟨?_, ?_, ?_, ?_⟩
  · intro res h
    unfold classifyResponse
    rw [if_pos h]
  · intro d
    exact ⟨rfl, rfl⟩
  · intro rest
    rfl
  · intro res rest h
    unfold osvRequest osvRequestGo
    rw [h]
    simp

theorem C4_retry_behavior_witness :
    classifyResponse fail500 = .failure true ∧ osvRequest [⟨404, none⟩] = ([], []) :=
  ⟨C4_retry_behavior.1 fail500 (by decide),
   C4_retry_behavior.2.2.2 ⟨404, none⟩ [] (by decide)⟩

theorem dedupAux_mem (l : List String) : ∀ (acc : List String) (x : String),
    x ∈ l.foldl (fun acc y => if y ∈ acc then acc else acc ++ [y]) acc ↔
      x ∈ acc ∨ x ∈ l := by
  induction l with
  | nil => intro acc x; simp
  | cons y l ih =>
    intro acc x
    rw [List.foldl_cons]
    by_cases h : y ∈ acc
    · rw [if_pos h, ih]
      constructor
      · rintro (hx | hx)
        · exact Or.inl hx
        · exact Or.inr (List.mem_cons_of_mem _ hx)
      · rintro (hx | hx)
        · exact Or.inl hx
        · rcases List.mem_cons.mp hx with rfl | hx
          · exact Or.inl h
          · exact Or.inr hx
    · rw [if_neg h, ih]
      simp only [List.mem_append, List.mem_cons, List.mem_singleton]
      tauto

theorem dedupKeepFirst_mem (l : List String) (x : String) :
    x ∈ dedupKeepFirst l ↔ x ∈ l := by
  rw [dedupKeepFirst, dedupAux_mem]
  simp

theorem dedupAux_nodup (l : List String) : ∀ acc : List String, acc.Nodup →
    (l.foldl (fun acc y => if y ∈ acc then acc else acc ++ [y]) acc).Nodup := by
  induction l with
  | nil => intro acc h; simpa
  | cons y l ih =>
    intro acc h
    rw [List.foldl_cons]
    by_cases hy : y ∈ acc
    · rw [if_pos hy]; exact ih acc h
    · rw [if_neg hy]
      refine ih _ ?_
      simp [List.nodup_append, h, hy]

theorem dedupKeepFirst_nodup (l : List String) : (dedupKeepFirst l).Nodup :=
  dedupAux_nodup l [] (by simp)

theorem recordVuln_nil (v : Vuln) (comp : String) :
    recordVuln [] v comp = [(v.id, initRecord v comp)] := rfl

theorem recordVuln_single (vid : String) (rec : VulnRecord) (v : Vuln)
    (comp : String) (h : v.id = vid) :
    recordVuln [(vid, rec)] v comp = [(vid, mergeRecord rec v comp)] := by
  subst h
  simp [recordVuln, jsMapGet, jsMapSet, List.find?]

/-- Folding record operations that all target identifier `vid` over the
one-entry map `[(vid, rec)]` keeps a single entry whose fixes are the
running union and whose components accumulate first-occurrence-only. -/
theorem aggregator_invariant (vid : String) :
    ∀ (ops : List (Vuln × String)) (rec : VulnRecord),
    (∀ op ∈ ops, op.1.id = vid) →
    ∃ recf,
      ops.foldl (fun m op => recordVuln m op.1 op.2) [(vid, rec)] = [(vid, recf)] ∧
      (∀ s, s ∈ recf.fixedVersions ↔
        s ∈ rec.fixedVersions ∨ ∃ op ∈ ops, s ∈ extractFixes op.1) ∧
      (rec.fixedVersions.Nodup → recf.fixedVersions.Nodup) ∧
      recf.affectedComponents =
        ops.foldl (fun acc op => if op.2 ∈ acc then acc else acc ++ [op.2])
          rec.affectedComponents := by
  intro ops
  induction ops with
  | nil =>
    intro rec _
    exact ⟨rec, rfl, by simp, fun h => h, rfl⟩
  | cons op rest ih =>
    intro rec hid
    have hop : op.1.id = vid := hid op (List.mem_cons_self _ _)
    have hrest : ∀ o ∈ rest, o.1.id = vid := fun o ho => hid o (List.mem_cons_of_mem _ ho)
    rw [List.foldl_cons, recordVuln_single vid rec op.1 op.2 hop]
    obtain ⟨recf, heq, hmem, hnd, hcomp⟩ := ih (mergeRecord rec op.1 op.2) hrest
    refine ⟨recf, heq, ?_, ?_, ?_⟩
    · intro s
      rw [hmem s]
      simp only [mergeRecord, dedupKeepFirst_mem, List.mem_append, List.mem_cons]
      constructor
      · rintro ((hs | hs) | ⟨o, ho, hs⟩)
        · exact Or.inl hs
        · exact Or.inr ⟨op, Or.inl rfl, hs⟩
        · exact Or.inr ⟨o, Or.inr ho, hs⟩
      · rintro (hs | ⟨o, ho | ho, hs⟩)
        · exact Or.inl (Or.inl hs)
        · subst ho; exact Or.inl (Or.inr hs)
        · exact Or.inr ⟨o, ho, hs⟩
    · intro _
      exact hnd (dedupKeepFirst_nodup _)
    · rw [hcomp]
      rfl

/-- C6: over any nonempty sequence of record operations on one
vulnerability identifier, the stored record's `fixedVersions` is exactly
the duplicate-free union of the reported fixed-version sets and
`affectedComponents` lists each reporting component once in first-report
order; the concrete two-component merge and the same-component
idempotence scenarios evaluate as claimed. -/
theorem C6_aggregator_merge :
    (∀ (vid : String) (ops : List (Vuln × String)), ops ≠ [] →
      (∀ op ∈ ops, op.1.id = vid) →
      ∃ recf, runAggregator ops = [(vid, recf)] ∧
        (∀ s, s ∈ recf.fixedVersions ↔ ∃ op ∈ ops, s ∈ extractFixes op.1) ∧
        recf.fixedVersions.Nodup ∧
        recf.affectedComponents = dedupKeepFirst (ops.map (fun op => op.2))) ∧
    ((jsMapGet (runAggregator [(fixVuln "V1" "2.0.0", "A"), (fixVuln "V1" "2.1.0", "B")]) "V1").map
        (fun r => (r.fixedVersions, r.affectedComponents))
      = some (["2.0.0", "2.1.0"], ["A", "B"])) ∧
    ((jsMapGet (runAggregator [(fixVuln "V1" "2.0.0", "A"), (fixVuln "V1" "2.0.0", "A")]) "V1").map
        (fun r => r.affectedComponents)
      = some ["A"]) := by
  refine ⟨?_, ?_, ?_⟩
  · intro vid ops hne hid
    cases ops with
    | nil => exact absurd rfl hne
    | cons op rest =>
      have hop : op.1.id = vid := hid op (List.mem_cons_self _ _)
      have hrest : ∀ o ∈ rest, o.1.id = vid := fun o ho => hid o (List.mem_cons_of_mem _ ho)
      rw [runAggregator, List.foldl_cons]
      have h0 : recordVuln [] op.1 op.2 = [(vid, initRecord op.1 op.2)] := by
        rw [recordVuln_nil, hop]
      rw [h0]
      obtain ⟨recf, heq, hmem, hnd, hcomp⟩ := aggregator_invariant vid rest (initRecord op.1 op.2) hrest
      refine ⟨recf, heq, ?_, hnd (dedupKeepFirst_nodup _), ?_⟩
      · intro s
        rw [hmem s]
        simp only [initRecord]
        constructor
        · rintro (hs | ⟨o, ho, hs⟩)
          · exact ⟨op, List.mem_cons_self _ _, hs⟩
          · exact ⟨o, List.mem_cons_of_mem _ ho, hs⟩
        · rintro ⟨o, ho, hs⟩
          rcases List.mem_cons.mp ho with rfl | ho
          · exact Or.inl hs
          · exact Or.inr ⟨o, ho, hs⟩
      · rw [hcomp]
        simp [initRecord, dedupKeepFirst, List.foldl_map]
  · decide
  · decide

theorem C6_aggregator_merge_witness :
    ∃ recf, runAggregator [(fixVuln "V1" "2.0.0", "A")] = [("V1", recf)] ∧
      (∀ s, s ∈ recf.fixedVersions ↔
        ∃ op ∈ [(fixVuln "V1" "2.0.0", "A")], s ∈ extractFixes op.1) ∧
      recf.fixedVersions.Nodup ∧
      recf.affectedComponents
        = dedupKeepFirst ([(fixVuln "V1" "2.0.0", "A")].map (fun op => op.2)) :=
  C6_aggregator_merge.1 "V1" [(fixVuln "V1" "2.0.0", "A")] (by simp) (by decide)

theorem jsMapGet_set {κ ν : Type} [BEq κ] [LawfulBEq κ] [DecidableEq κ]
    (m : List (κ × ν)) (k k2 : κ) (v : ν) :
    jsMapGet (jsMapSet m k v) k2 = if k2 = k then some v else jsMapGet m k2 := by
  induction m with
  | nil =>
    by_cases h : k2 = k
    · subst h
      simp [jsMapGet, jsMapSet, List.find?]
    · have hb : (k == k2) = false := beq_eq_false_iff_ne.mpr (Ne.symm h)
      simp [jsMapGet, jsMapSet, List.find?, hb, h]
  | cons p m ih =>
    by_cases hk : p.1 = k
    · rw [jsMapSet, if_pos (by simp [hk])]
      by_cases h2 : k2 = k
      · subst h2
        simp [jsMapGet, List.find?]
      · have hb : (k == k2) = false := beq_eq_false_iff_ne.mpr (fun hc => h2 hc.symm)
        have hpb : (p.1 == k2) = false :=
          beq_eq_false_iff_ne.mpr (fun hc => h2 (hc.symm.trans hk))
        simp [jsMapGet, List.find?, hb, hpb, h2]
    · rw [jsMapSet, if_neg (by simp [hk])]
      by_cases hp2 : p.1 = k2
      · have h2 : ¬ k2 = k := fun hc => hk (hp2.trans hc)
        have hpb : (p.1 == k2) = true := beq_iff_eq.mpr hp2
        simp [jsMapGet, List.find?, hpb, h2]
      · have hpb : (p.1 == k2) = false := beq_eq_false_iff_ne.mpr hp2
        have hcl : jsMapGet (p :: jsMapSet m k v) k2 = jsMapGet (jsMapSet m k v) k2 := by
          simp [jsMapGet, List.find?, hpb]
        have hcr : jsMapGet (p :: m) k2 = jsMapGet m k2 := by
          simp [jsMapGet, List.find?, hpb]
        rw [hcl, hcr, ih]

/-- `processItem` never removes a summary entry. -/
theorem processItem_preserves_entry (s : ScrapeState) (pkg : WorkItem)
    (vulns : List Vuln) (k : String)
    (h : (jsMapGet s.perPackageCounts k).isSome) :
    (jsMapGet (processItem s pkg vulns).perPackageCounts k).isSome := by
  unfold processItem
  by_cases he : vulns.isEmpty
  · rw [if_pos he]; exact h
  · rw [if_neg he]
    show (jsMapGet (jsMapSet s.perPackageCounts pkg.component _) k).isSome
    rw [jsMapGet_set]
    by_cases hk : k = pkg.component
    · rw [if_pos hk]; rfl
    · rw [if_neg hk]; exact h

theorem stage2_preserves_entry :
    ∀ (ops : List (WorkItem × List Vuln)) (s : ScrapeState) (k : String),
    (jsMapGet s.perPackageCounts k).isSome →
    (jsMapGet ((ops.foldl (fun s op => processItem s op.1 op.2) s)).perPackageCounts k).isSome := by
  intro ops
  induction ops with
  | nil => intro s k h; exact h
  | cons op rest ih =>
    intro s k h
    rw [List.foldl_cons]
    exact ih _ k (processItem_preserves_entry s op.1 op.2 k h)

theorem stage2_entry_aux :
    ∀ (ops : List (WorkItem × List Vuln)) (s : ScrapeState) (op : WorkItem × List Vuln),
    op ∈ ops → op.2 ≠ [] →
    (jsMapGet ((ops.foldl (fun s op => processItem s op.1 op.2) s)).perPackageCounts
      op.1.component).isSome := by
  intro ops
  induction ops with
  | nil => intro s op h; simp at h
  | cons o rest ih =>
    intro s op hmem hne
    rw [List.foldl_cons]
    rcases List.mem_cons.mp hmem with rfl | hmem
    · apply stage2_preserves_entry rest
      unfold processItem
      rw [if_neg (by simpa using hne)]
      show (jsMapGet (jsMapSet s.perPackageCounts op.1.component _) op.1.component).isSome
      rw [jsMapGet_set, if_pos rfl]
      rfl
    · exact ih _ op hmem hne

/-- C8 (amended): a processed item with a nonempty query result always
gets a summary entry (the remediated count over its relevant vulns), that
entry survives the rest of the run even when later items fail, but an item
whose query produced no vulnerabilities (including every permanently
failed query) leaves the state untouched and gets no entry. -/
theorem C8_summary_amended :
    (∀ (s : ScrapeState) (pkg : WorkItem) (vulns : List Vuln), vulns ≠ [] →
      jsMapGet (processItem s pkg vulns).perPackageCounts pkg.component
        = some ((vulns.filter (fun v => isVulnerableAtOrBelow v pkg.forkPoint)).countP
            (fun v => !(extractFixes v).isEmpty))) ∧
    (∀ (s : ScrapeState) (pkg : WorkItem), processItem s pkg [] = s) ∧
    (∀ (ops : List (WorkItem × List Vuln)) (op : WorkItem × List Vuln),
      op ∈ ops → op.2 ≠ [] →
      (jsMapGet (runStage2 ops).perPackageCounts op.1.component).isSome) := by
  refine ⟨?_, ?_, ?_⟩
  · intro s pkg vulns hne
    unfold processItem
    rw [if_neg (by simpa using hne)]
    show jsMapGet (jsMapSet s.perPackageCounts pkg.component _) pkg.component = _
    rw [jsMapGet_set, if_pos rfl]
  · intro s pkg
    rfl
  · intro ops op hmem hne
    exact stage2_entry_aux ops ⟨[], []⟩ op hmem hne

theorem C8_summary_amended_witness :
    ([fixVuln "X" "2.0.0"] ≠ []) ∧
    jsMapGet (processItem ⟨[], []⟩ ⟨"a", "1.0.0"⟩ [fixVuln "X" "2.0.0"]).perPackageCounts "a"
      = some (([fixVuln "X" "2.0.0"].filter (fun v => isVulnerableAtOrBelow v "1.0.0")).countP
          (fun v => !(extractFixes v).isEmpty)) ∧
    processItem ⟨[], []⟩ ⟨"a", "1.0.0"⟩ [] = ⟨[], []⟩ ∧
    (jsMapGet (runStage2 [(⟨"a", "1.0.0"⟩, [fixVuln "X" "2.0.0"]), (⟨"b", "1.0.0"⟩, [])]).perPackageCounts
      "a").isSome :=
  ⟨by simp,
   C8_summary_amended.1 ⟨[], []⟩ ⟨"a", "1.0.0"⟩ [fixVuln "X" "2.0.0"] (by simp),
   C8_summary_amended.2.1 ⟨[], []⟩ ⟨"a", "1.0.0"⟩,
   C8_summary_amended.2.2 [(⟨"a", "1.0.0"⟩, [fixVuln "X" "2.0.0"]), (⟨"b", "1.0.0"⟩, [])]
     (⟨"a", "1.0.0"⟩, [fixVuln "X" "2.0.0"]) (by simp) (by simp)⟩

/-- C8 (counterexample): a work item whose query succeeds with zero
vulnerabilities is processed successfully, yet the final per-component
summary has no entry for it — the worker `continue`s before
`perPackageCounts.set` (`src/osv_scrape.js:172-175`). -/
theorem C8_counterexample :
    jsMapGet (runStage2 [(⟨"pkg:npm/a", "1.0.0"⟩, [])]).perPackageCounts "pkg:npm/a"
      = none := by decide

/-- Dequeued items plus the remaining queue are conserved, in order. -/
theorem poolRun_invariant (sched : List Nat) :
    ∀ s : PoolState,
    (poolRun sched s).log.map (fun e => e.2) ++ (poolRun sched s).queue
      = s.log.map (fun e => e.2) ++ s.queue := by
  induction sched with
  | nil => intro s; rfl
  | cons lane sched ih =>
    intro s
    rw [poolRun, List.foldl_cons]
    have hstep : (poolStep s lane).log.map (fun e => e.2) ++ (poolStep s lane).queue
        = s.log.map (fun e => e.2) ++ s.queue := by
      cases hq : s.queue with
      | nil => simp [poolStep, hq]
      | cons it rest => simp [poolStep, hq]
    calc (poolRun sched (poolStep s lane)).log.map (fun e => e.2)
          ++ (poolRun sched (poolStep s lane)).queue
        = (poolStep s lane).log.map (fun e => e.2) ++ (poolStep s lane).queue := ih _
      _ = s.log.map (fun e => e.2) ++ s.queue := hstep

/-- A schedule at least as long as the queue drains it completely. -/
theorem poolRun_drains (sched : List Nat) :
    ∀ s : PoolState, s.queue.length ≤ sched.length → (poolRun sched s).queue = [] := by
  induction sched with
  | nil =>
    intro s h
    exact List.eq_nil_of_length_eq_zero (Nat.le_zero.mp h)
  | cons lane sched ih =>
    intro s h
    rw [poolRun, List.foldl_cons]
    apply ih
    cases hq : s.queue with
    | nil => simp [poolStep, hq]
    | cons it rest =>
      have hlen := congrArg List.length hq
      simp only [List.length_cons] at hlen h
      simp only [poolStep, hq]
      omega

theorem filter_beq_length_one {α : Type} [DecidableEq α] :
    ∀ (l : List α) (it : α), l.Nodup → it ∈ l →
    (l.filter (fun x => x == it)).length = 1 := by
  intro l
  induction l with
  | nil => intro it _ h; simp at h
  | cons x l ih =>
    intro it hnd hmem
    have hx : x ∉ l := (List.nodup_cons.mp hnd).1
    have hl : l.Nodup := (List.nodup_cons.mp hnd).2
    rcases List.mem_cons.mp hmem with heq | hmem
    · rw [List.filter_cons, if_pos (by simp [heq])]
      have hnil : l.filter (fun y => y == it) = [] := by
        apply List.filter_eq_nil.mpr
        intro y hy
        simp only [beq_iff_eq]
        intro hyx
        rw [heq] at hyx
        exact hx (hyx ▸ hy)
      rw [hnil]
      rfl
    · have hb : (x == it) = false := beq_eq_false_iff_ne.mpr (fun hc => hx (hc ▸ hmem))
      rw [List.filter_cons, if_neg (by simp [hb])]
      exact ih it hl hmem

theorem filter_snd_length {β : Type} [DecidableEq β] (l : List (Nat × β)) (it : β) :
    (l.filter (fun e => e.2 == it)).length
      = ((l.map (fun e => e.2)).filter (fun x => x == it)).length := by
  induction l with
  | nil => rfl
  | cons e l ih =>
    rw [List.map_cons, List.filter_cons, List.filter_cons]
    by_cases h : (e.2 == it) = true
    · rw [if_pos h, if_pos h]
      simpa using ih
    · rw [if_neg h, if_neg h]
      exact ih

/-- C5: for every lane count ≥ 1 and every schedule that is long enough
and stays within the lanes, the run drains the queue, the dequeue log
lists exactly the original items in order (each processed exactly once),
and for distinct items no two log entries — in particular no two lanes —
ever hold the same item. -/
theorem C5_pool_exactly_once (k : Nat) (items : List WorkItem) (sched : List Nat)
    (hk : 1 ≤ k) (hlanes : ∀ l ∈ sched, l < k) (hlen : items.length ≤ sched.length) :
    (poolRun sched ⟨items, []⟩).queue = [] ∧
    (poolRun sched ⟨items, []⟩).log.map (fun e => e.2) = items ∧
    (items.Nodup → ∀ it ∈ items,
      ((poolRun sched ⟨items, []⟩).log.filter (fun e => e.2 == it)).length = 1) := by
  have hq : (poolRun sched ⟨items, []⟩).queue = [] := poolRun_drains sched ⟨items, []⟩ hlen
  have hinv := poolRun_invariant sched ⟨items, []⟩
  rw [hq] at hinv
  simp only [List.append_nil, List.map_nil, List.nil_append] at hinv
  refine ⟨hq, hinv, ?_⟩
  intro hnd it hmem
  rw [filter_snd_length, hinv]
  exact filter_beq_length_one items it hnd hmem

theorem C5_pool_exactly_once_witness :
    (poolRun [0, 1, 0] ⟨[⟨"a", "1.0.0"⟩, ⟨"b", "2.0.0"⟩, ⟨"c", "3.0.0"⟩], []⟩).queue = [] ∧
    (poolRun [0, 1, 0] ⟨[⟨"a", "1.0.0"⟩, ⟨"b", "2.0.0"⟩, ⟨"c", "3.0.0"⟩], []⟩).log.map
        (fun e => e.2)
      = [⟨"a", "1.0.0"⟩, ⟨"b", "2.0.0"⟩, ⟨"c", "3.0.0"⟩] ∧
    ((poolRun [0, 1, 0] ⟨[⟨"a", "1.0.0"⟩, ⟨"b", "2.0.0"⟩, ⟨"c", "3.0.0"⟩], []⟩).log.filter
        (fun e => e.2 == ⟨"a", "1.0.0"⟩)).length = 1 := by
  have h := C5_pool_exactly_once 2 [⟨"a", "1.0.0"⟩, ⟨"b", "2.0.0"⟩, ⟨"c", "3.0.0"⟩]
    [0, 1, 0] (by decide) (by decide) (by decide)
  exact ⟨h.1, h.2.1, h.2.2 (by decide) ⟨"a", "1.0.0"⟩ (by decide)⟩

theorem hasNone_eq_false (m : CatalogMap) (h : catKeysSome m) :
    jsMapHas m none = false := by
  rw [jsMapHas]
  rw [List.any_eq_false]
  intro p hp
  simp only [beq_iff_eq]
  exact h p hp

theorem keysSome_setSome (c : String) (v : ComponentEntry) :
    ∀ m : CatalogMap, catKeysSome m → catKeysSome (jsMapSet m (some c) v) := by
  intro m
  induction m with
  | nil =>
    intro _ p hp
    rcases List.mem_singleton.mp hp with rfl
    simp
  | cons q m ih =>
    intro h p hp
    rw [jsMapSet] at hp
    by_cases hq : (q.1 == some c) = true
    · rw [if_pos hq] at hp
      rcases List.mem_cons.mp hp with rfl | hp
      · simp
      · exact h p (List.mem_cons_of_mem _ hp)
    · rw [if_neg hq] at hp
      rcases List.mem_cons.mp hp with rfl | hp
      · exact h p (List.mem_cons_self _ _)
      · exact ih (fun r hr => h r (List.mem_cons_of_mem _ hr)) p hp

theorem foldFps_eq (item : CatalogItem) (c : String) :
    ∀ (fps : List String) (m : CatalogMap), catKeysSome m →
    fps.foldl (processForkPoint item c) m
        = fps.foldl (fun m fp => jsMapSet m (some c) ⟨c, fp⟩) m ∧
    catKeysSome (fps.foldl (fun m fp => jsMapSet m (some c) ⟨c, fp⟩) m) := by
  intro fps
  induction fps with
  | nil => intro m h; exact ⟨rfl, h⟩
  | cons fp fps ih =>
    intro m h
    have hstep : processForkPoint item c m fp = jsMapSet m (some c) ⟨c, fp⟩ := by
      rw [processForkPoint]
      rw [show item.componenty = none from rfl, hasNone_eq_false m h]
      rfl
    rw [List.foldl_cons, List.foldl_cons, hstep]
    exact ih (jsMapSet m (some c) ⟨c, fp⟩) (keysSome_setSome c ⟨c, fp⟩ m h)

theorem processCatalogItem_eq (m : CatalogMap) (item : CatalogItem)
    (h : catKeysSome m) :
    processCatalogItem m item = processCatalogItemLastWins m item ∧
    catKeysSome (processCatalogItemLastWins m item) := by
  rw [processCatalogItem, processCatalogItemLastWins]
  cases hcomp : item.component with
  | none => exact ⟨rfl, h⟩
  | some c =>
    dsimp only
    by_cases hc : c = ""
    · simp only [if_pos hc]
      exact ⟨trivial, h⟩
    · simp only [if_neg hc]
      exact foldFps_eq item c _ m h

theorem processResults_eq :
    ∀ (results : List CatalogItem) (m : CatalogMap), catKeysSome m →
    processResults results m = processResultsLastWins results m ∧
    catKeysSome (processResultsLastWins results m) := by
  intro results
  induction results with
  | nil => intro m h; exact ⟨rfl, h⟩
  | cons item results ih =>
    intro m h
    obtain ⟨heq, hinv⟩ := processCatalogItem_eq m item h
    rw [processResults, List.foldl_cons, heq]
    obtain ⟨heq2, hinv2⟩ := ih (processCatalogItemLastWins m item) hinv
    exact ⟨heq2, hinv2⟩

theorem getLastQ_append {α : Type} (l1 l2 : List α) :
    (l1 ++ l2).getLast?
      = match l2.getLast? with | none => l1.getLast? | some v => some v := by
  induction l1 with
  | nil =>
    rw [List.nil_append]
    cases h : l2.getLast? <;> rfl
  | cons a l1 ih =>
    rw [List.cons_append, getLastQ_cons, ih, getLastQ_cons]
    cases l2.getLast? <;> cases l1.getLast? <;> rfl

theorem foldSet_get_self (c : String) :
    ∀ (fps : List String) (m : CatalogMap),
    jsMapGet (fps.foldl (fun m fp => jsMapSet m (some c) ⟨c, fp⟩) m) (some c)
      = match fps.getLast? with
        | some fp => some (⟨c, fp⟩ : ComponentEntry)
        | none => jsMapGet m (some c) := by
  intro fps
  induction fps with
  | nil => intro m; rfl
  | cons fp fps ih =>
    intro m
    rw [List.foldl_cons, ih, getLastQ_cons]
    cases hl : fps.getLast? with
    | some v => rfl
    | none =>
      rw [jsMapGet_set, if_pos rfl]

theorem foldSet_get_other (c c2 : String) (hne : c2 ≠ c) :
    ∀ (fps : List String) (m : CatalogMap),
    jsMapGet (fps.foldl (fun m fp => jsMapSet m (some c) ⟨c, fp⟩) m) (some c2)
      = jsMapGet m (some c2) := by
  intro fps
  induction fps with
  | nil => intro m; rfl
  | cons fp fps ih =>
    intro m
    rw [List.foldl_cons, ih, jsMapGet_set, if_neg (by simpa using hne)]

theorem lastWins_lookup (c : String) (hc : c ≠ "") :
    ∀ (results : List CatalogItem) (m : CatalogMap),
    jsMapGet (processResultsLastWins results m) (some c)
      = match (observedForks c results).getLast? with
        | some fp => some (⟨c, fp⟩ : ComponentEntry)
        | none => jsMapGet m (some c) := by
  intro results
  induction results with
  | nil => intro m; rfl
  | cons item results ih =>
    intro m
    rw [processResultsLastWins, List.foldl_cons]
    have hobs : observedForks c (item :: results)
        = (if item.component = some c then item.versions.map (fun v => v.oss.forkPoint) else [])
          ++ observedForks c results := by
      rw [observedForks, List.bind]
      rfl
    rw [hobs, getLastQ_append]
    by_cases hcomp : item.component = some c
    · have hstep : processCatalogItemLastWins m item
          = (item.versions.map (fun v => v.oss.forkPoint)).foldl
              (fun m fp => jsMapSet m (some c) ⟨c, fp⟩) m := by
        rw [processCatalogItemLastWins, hcomp]
        dsimp only
        rw [if_neg hc]
      rw [hstep, if_pos hcomp]
      have := ih ((item.versions.map (fun v => v.oss.forkPoint)).foldl
        (fun m fp => jsMapSet m (some c) ⟨c, fp⟩) m)
      rw [processResultsLastWins] at this
      rw [this, foldSet_get_self]
      cases (observedForks c results).getLast? <;>
        cases (item.versions.map (fun v => v.oss.forkPoint)).getLast? <;> rfl
    · have hstep : jsMapGet (processCatalogItemLastWins m item) (some c) = jsMapGet m (some c) := by
        rw [processCatalogItemLastWins]
        cases hcomp2 : item.component with
        | none => rfl
        | some c2 =>
          dsimp only
          by_cases hc2 : c2 = ""
          · rw [if_pos hc2]
          · rw [if_neg hc2]
            have : c ≠ c2 := fun h => hcomp (h ▸ hcomp2)
            exact foldSet_get_other c2 c this _ m
      rw [if_neg hcomp]
      have := ih (processCatalogItemLastWins m item)
      rw [processResultsLastWins] at this
      rw [this]
      cases (observedForks c results).getLast? with
      | some v => rfl
      | none => exact hstep

/-- C9: the membership guard reads `item.componenty`, a property no
catalog entry has, so `Map.has(undefined)` is false on every iteration of
every run whose map keys are real component strings (true of every run
from the empty map).  Consequently `processResults` coincides with the
unconditional-overwrite version — per component the stored entry is the
last fork point observed in processing order — and the `compareSemver`
else-branch never executes. -/
theorem C9_componenty_guard :
    (∀ (m : CatalogMap) (item : CatalogItem), catKeysSome m →
      jsMapHas m item.componenty = false) ∧
    (∀ (results : List CatalogItem) (m : CatalogMap), catKeysSome m →
      processResults results m = processResultsLastWins results m) ∧
    (∀ (results : List CatalogItem) (c : String), c ≠ "" →
      jsMapGet (processResults results []) (some c)
        = match (observedForks c results).getLast? with
          | some fp => some (⟨c, fp⟩ : ComponentEntry)
          | none => none) := by
  refine ⟨?_, ?_, ?_⟩
  · intro m item h
    exact hasNone_eq_false m h
  · intro results m h
    exact (processResults_eq results m h).1
  · intro results c hc
    have hempty : catKeysSome ([] : CatalogMap) := by
      intro p hp
      simp at hp
    rw [(processResults_eq results [] hempty).1, lastWins_lookup c hc results []]
    cases (observedForks c results).getLast? <;> rfl

theorem C9_componenty_guard_witness :
    jsMapHas [(some "a", (⟨"a", "1.0.0"⟩ : ComponentEntry))]
        (CatalogItem.componenty ⟨some "b", []⟩) = false ∧
    processResults [⟨some "a", [⟨⟨"1.0.0"⟩⟩]⟩] []
      = processResultsLastWins [⟨some "a", [⟨⟨"1.0.0"⟩⟩]⟩] [] ∧
    jsMapGet (processResults [⟨some "a", [⟨⟨"1.0.0"⟩⟩]⟩] []) (some "a")
      = match (observedForks "a" [⟨some "a", [⟨⟨"1.0.0"⟩⟩]⟩]).getLast? with
        | some fp => some (⟨"a", fp⟩ : ComponentEntry)
        | none => none :=
  ⟨C9_componenty_guard.1 [(some "a", ⟨"a", "1.0.0"⟩)] ⟨some "b", []⟩ (by simp [catKeysSome]),
   C9_componenty_guard.2.1 [⟨some "a", [⟨⟨"1.0.0"⟩⟩]⟩] [] (by simp [catKeysSome]),
   C9_componenty_guard.2.2 [⟨some "a", [⟨⟨"1.0.0"⟩⟩]⟩] "a" (by decide)⟩

/-- C1 (code evaluated at the failing input): a single catalog entry for
component `"a"` observing fork points `"2.0.0"` then `"1.0.0"`.  The
maximum under `compareSemver` is `"2.0.0"`, but the retained entry is the
last observed `"1.0.0"`: the guard reads the non-existent `componenty`
property, so the maximum-keeping branch never runs, contradicting the
claimed (and README-documented) highest-fork-point invariant. -/
theorem C1_failing_input_eval :
    jsMapGet (processResults [⟨some "a", [⟨⟨"2.0.0"⟩⟩, ⟨⟨"1.0.0"⟩⟩]⟩] []) (some "a")
      = some (⟨"a", "1.0.0"⟩ : ComponentEntry) ∧
    compareSemver "2.0.0" "1.0.0" > 0 :=
  ⟨by decide, by decide⟩

/-- C10: every query a completed run issues carries the raw component
identifier verbatim (one query per dequeued work item, in dequeue order),
and `parsePurl` — whose normalization is shown on the three mapped
registries — has no influence on them: the registry mapping never reaches
a query payload.  (`parsePurl` has no call site anywhere in
`src/osv_scrape.js`.) -/
theorem C10_raw_purl_queries :
    (∀ (sched : List Nat) (items : List WorkItem), items.length ≤ sched.length →
      (poolRun sched ⟨items, []⟩).log.map (fun e => mkQueryBody e.2)
        = items.map (fun it => (⟨it.component⟩ : QueryBody))) ∧
    parsePurl "pkg:gem/rails@7.0.0" = some ⟨"RubyGems", "rails", some "7.0.0"⟩ ∧
    parsePurl "pkg:maven/org.apache/commons@1.2"
      = some ⟨"Maven", "org.apache/commons", some "1.2"⟩ ∧
    parsePurl "pkg:composer/symfony/console@5.3.0"
      = some ⟨"Packagist", "symfony/console", some "5.3.0"⟩ ∧
    (∀ pkg : WorkItem, mkQueryBody pkg = ⟨pkg.component⟩) := by
  refine ⟨?_, by decide, by decide, by decide, fun pkg => rfl⟩
  intro sched items hlen
  have hq : (poolRun sched ⟨items, []⟩).queue = [] := poolRun_drains sched ⟨items, []⟩ hlen
  have hinv := poolRun_invariant sched ⟨items, []⟩
  rw [hq] at hinv
  simp only [List.append_nil, List.map_nil, List.nil_append] at hinv
  calc (poolRun sched ⟨items, []⟩).log.map (fun e => mkQueryBody e.2)
      = ((poolRun sched ⟨items, []⟩).log.map (fun e => e.2)).map mkQueryBody := by
        rw [List.map_map]; rfl
    _ = items.map (fun it => (⟨it.component⟩ : QueryBody)) := by rw [hinv]; rfl

theorem C10_raw_purl_queries_witness :
    (poolRun [0, 1] ⟨[⟨"pkg:gem/rails", "7.0.0"⟩], []⟩).log.map (fun e => mkQueryBody e.2)
      = ([⟨"pkg:gem/rails", "7.0.0"⟩] : List WorkItem).map
          (fun it => (⟨it.component⟩ : QueryBody)) :=
  C10_raw_purl_queries.1 [0, 1] [⟨"pkg:gem/rails", "7.0.0"⟩] (by decide)

end MDS
